import Mathlib

/-!
Verification of the default-value-injection enhancement (`DefaultAuthHandler`)
of the zenstack runtime.  The handler preprocesses create-family write payloads
and injects, for every field carrying an identity-dependent default value
provider, the value `provider(identity)` — either directly as a scalar or,
for foreign-key fields in non-privileged contexts, as a relational `connect`.

Payloads are JSON-like values; the TypeScript code's in-place mutation is
modelled by explicit state passing, and thrown errors by `Except`.
-/

set_option autoImplicit false

/-- A JSON-like JavaScript value as manipulated by the handler.  `undefined`
models JavaScript `undefined` (distinct from `null`); objects are ordered
association lists of string keys, matching JS object insertion order. -/
inductive Value where
  | undefined : Value
  | null : Value
  | bool : Bool → Value
  | num : Int → Value
  | str : String → Value
  | obj : List (String × Value) → Value
  | arr : List Value → Value

/-- JavaScript truthiness of a value. -/
def truthy : Value → Bool
  | .undefined => false
  | .null => false
  | .bool b => b
  | .num n => n != 0
  | .str s => s != ""
  | .obj _ => true
  | .arr _ => true

/-- Whether the value passes the handler's object checks
(`typeof data === 'object'` on a truthy value): objects and arrays. -/
def isObjLike : Value → Bool
  | .obj _ => true
  | .arr _ => true
  | _ => false

/-- Whether the value is JavaScript `undefined`. -/
def isUndefined : Value → Bool
  | .undefined => true
  | _ => false

/-- Key presence in an object's fields (`key in data`). -/
def objHas : List (String × Value) → String → Bool
  | [], _ => false
  | (k', _) :: rest, k => k' == k || objHas rest k

/-- Property read on an object's fields (`data[key]`); `undefined` when absent. -/
def objGet : List (String × Value) → String → Value
  | [], _ => .undefined
  | (k', v) :: rest, k => if k' == k then v else objGet rest k

/-- Property write on an object's fields (`data[key] = v`): an existing key
keeps its position, a new key is appended, as in JavaScript. -/
def objSet : List (String × Value) → String → Value → List (String × Value)
  | [], k, v => [(k, v)]
  | (k', v') :: rest, k, v =>
    if k' == k then (k, v) :: rest else (k', v') :: objSet rest k v

/-- Property presence on an arbitrary value; non-objects have no
own string-keyed properties relevant to the handler. -/
def jsHasProp : Value → String → Bool
  | .obj fs, k => objHas fs k
  | _, _ => false

/-- Property read on an arbitrary value (`v?.key`, `v[key]`):
`undefined` for anything that is not an object. -/
def jsGetProp : Value → String → Value
  | .obj fs, k => objGet fs k
  | _, _ => .undefined

/-- Property write on an arbitrary value; a write to a non-object is
not representable and leaves the value unchanged. -/
def jsSetProp : Value → String → Value → Value
  | .obj fs, k, v => .obj (objSet fs k v)
  | item, _, _ => item

/-- Metadata for one model or type-def field, as consumed by the handler:
`defaultValueProvider` is the compiled `@default(auth()...)` expression, a
function from the caller identity to the default value. -/
structure FieldInfo where
  name : String
  type : String := ""
  isTypeDef : Bool := false
  isForeignKey : Bool := false
  relationField : Option String := none
  foreignKeyMapping : Option (List (String × String)) := none
  defaultValueProvider : Option (Value → Value) := none

/-- Metadata for an embedded type-def: its field list. -/
structure TypeDefInfo where
  fields : List FieldInfo

/-- Modelled from the spec: the Model Metadata Index (`ModelMeta`), a
read-only mapping from model name to its ordered field list and from
type-def name to its field list.  The index itself is built outside the
enhancement core. -/
structure ModelMeta where
  models : List (String × List FieldInfo)
  typeDefs : List (String × TypeDefInfo)

/-- Modelled from the spec: `getFields(model)` returns the model's ordered
field list from the metadata index. -/
def getFields (meta : ModelMeta) (model : String) : List FieldInfo :=
  match meta.models.find? (fun e => e.1 == model) with
  | some e => e.2
  | none => []

/-- Modelled from the spec: `getTypeDefInfo(typeName)` returns the type-def's
field list, or nothing when the name is unknown. -/
def getTypeDefInfo (meta : ModelMeta) (type : String) : Option TypeDefInfo :=
  (meta.typeDefs.find? (fun e => e.1 == type)).map (fun e => e.2)

/-- Errors thrown during preprocessing: `validationError` models the Prisma
client validation error, `configError` a thrown `Error` for inconsistent
metadata, `notFoundError` the metadata lookup failure of `requireField`. -/
inductive PrismaError where
  | validationError : String → PrismaError
  | configError : String → PrismaError
  | notFoundError : String → String → PrismaError

/-- Modelled from the spec: `requireField(model, field)` returns the field's
metadata and fails with a `NotFoundError` when it is absent. -/
def requireField (meta : ModelMeta) (model field : String) :
    Except PrismaError FieldInfo :=
  match (getFields meta model).find? (fun f => f.name == field) with
  | some f => .ok f
  | none => .error (.notFoundError model field)

/-- Message of the validation error raised when a default value must be
evaluated without a user context. -/
def defaultValueErrorMsg (name : String) : String :=
  "Evaluating default value of field `" ++ name ++ "` requires a user context"

/-- Message of the configuration error raised when a foreign-key field has no
corresponding relation field. -/
def fkNoRelationFieldMsg (name : String) : String :=
  "Field `" ++ name ++ "` is a foreign key field but no corresponding relation field is found"

/-- Message of the configuration error raised when the opposite foreign-key
field cannot be found in the relation's foreign-key mapping. -/
def fkNoOppositeFieldMsg (name rel : String) : String :=
  "Cannot find opposite foreign key field for `" ++ name ++ "` in relation field `" ++ rel ++ "`"

/-- `DefaultAuthHandler.getDefaultValue`: fails when the caller identity
(`userContext`) is falsy, otherwise evaluates the field's default value
provider (yielding `undefined` when there is none). -/
def getDefaultValue (uc : Value) (fieldInfo : FieldInfo) : Except PrismaError Value :=
  if truthy uc = false then
    .error (.validationError (defaultValueErrorMsg fieldInfo.name))
  else
    .ok (match fieldInfo.defaultValueProvider with
         | some provider => provider uc
         | none => .undefined)

/-- `DefaultAuthHandler.getOppositeFkFieldName`: reverse lookup in the
relation field's foreign-key mapping — the entry whose mapped value equals
the foreign-key field's name. -/
def getOppositeFkFieldName (relationField : FieldInfo) (fieldInfo : FieldInfo) :
    Option String :=
  match relationField.foreignKeyMapping with
  | none => none
  | some mapping =>
    (mapping.find? (fun e => e.2 == fieldInfo.name)).map (fun e => e.1)

/-- The first guard of `setDefaultValueForModelData`:
`fieldInfo.isForeignKey && fieldInfo.relationField && fieldInfo.relationField in data`
(the relation-field name is a string, so the empty string is falsy). -/
def fkRelationSet (fieldInfo : FieldInfo) (data : List (String × Value)) : Bool :=
  match fieldInfo.relationField with
  | some rn => (rn != "") && objHas data rn
  | none => false

/-- `DefaultAuthHandler.setDefaultValueForModelData`: applies a computed
default to a model-level field.  A foreign-key field whose relation field is
already set is left alone; a foreign-key field in a non-unsafe context is
translated into a `connect` on the relation field keyed by the opposite
foreign-key field; otherwise the scalar field is set directly.  `U` is the
injected `isUnsafeMutate(model, data)` predicate (modelled from the spec as
an external collaborator). -/
def setDefaultValueForModelData (U : String → Value → Bool) (meta : ModelMeta)
    (fieldInfo : FieldInfo) (model : String) (data : List (String × Value))
    (authDefaultValue : Value) : Except PrismaError (List (String × Value)) :=
  if fieldInfo.isForeignKey && fkRelationSet fieldInfo data then
    -- the relation field is already set; do not override it
    .ok data
  else if fieldInfo.isForeignKey && !(U model (.obj data)) then
    match fieldInfo.relationField with
    | none => .error (.configError (fkNoRelationFieldMsg fieldInfo.name))
    | some relFieldName =>
      if relFieldName == "" then
        .error (.configError (fkNoRelationFieldMsg fieldInfo.name))
      else
        match requireField meta model relFieldName with
        | .error e => .error e
        | .ok relationField =>
          -- construct a `{ connect: { ... } }` payload
          let cur := objGet data relationField.name
          let connect := jsGetProp cur "connect"
          match getOppositeFkFieldName relationField fieldInfo with
          | none =>
            .error (.configError (fkNoOppositeFieldMsg fieldInfo.name relFieldName))
          | some oppositeFkFieldName =>
            if truthy connect then
              -- the existing nested connect object is mutated in place
              .ok (objSet data relationField.name
                    (jsSetProp cur "connect"
                      (jsSetProp connect oppositeFkFieldName authDefaultValue)))
            else
              .ok (objSet data relationField.name
                    (.obj [("connect", .obj [(oppositeFkFieldName, authDefaultValue)])]))
  else
    -- set default value directly
    .ok (objSet data fieldInfo.name authDefaultValue)

/-- Values stored in an object are smaller than the object's field list. -/
theorem sizeOf_objGet_lt (fs : List (String × Value)) (k : String) :
    sizeOf (objGet fs k) < 1 + sizeOf fs := by
  induction fs with
  | nil => simp [objGet]
  | cons e rest ih =>
    obtain ⟨k', v⟩ := e
    simp only [objGet]
    split
    · simp only [Prod.mk.sizeOf_spec, List.cons.sizeOf_spec]
      omega
    · simp only [List.cons.sizeOf_spec]
      omega

/-- A property of an object-like value is smaller than the value. -/
theorem sizeOf_jsGetProp_lt (item : Value) (k : String) (h : isObjLike item = true) :
    sizeOf (jsGetProp item k) < sizeOf item := by
  cases item with
  | obj fs =>
    simp only [jsGetProp, Value.obj.sizeOf_spec]
    exact sizeOf_objGet_lt fs k
  | arr xs =>
    have hpos : 0 < sizeOf xs := by cases xs <;> simp_arith
    simp only [jsGetProp, Value.arr.sizeOf_spec, Value.undefined.sizeOf_spec]
    omega
  | undefined => simp [isObjLike] at h
  | null => simp [isObjLike] at h
  | bool b => simp [isObjLike] at h
  | num n => simp [isObjLike] at h
  | str s => simp [isObjLike] at h

mutual

/-- `DefaultAuthHandler.setDefaultValueForTypeDefData`: walks an embedded
type-def value (a single object or an array of objects) and injects default
values for sub-fields the payload does not set, recursing into nested
type-def sub-fields.  Non-objects and unknown type-def names are skipped. -/
def setDefaultValueForTypeDefData (meta : ModelMeta) (uc : Value) (type : String)
    (data : Value) : Except PrismaError Value :=
  if isObjLike data = false then
    .ok data
  else
    match getTypeDefInfo meta type with
    | none => .ok data
    | some typeDef =>
      match data with
      | .arr items =>
        match processTypeDefItems meta uc typeDef items with
        | .error e => .error e
        | .ok items2 => .ok (.arr items2)
      | d => processTypeDefItem meta uc typeDef d
termination_by (sizeOf data, 2, 0)

/-- The `enumerate(data).forEach` loop of `setDefaultValueForTypeDefData`
over the elements of an array value, each mutated in place. -/
def processTypeDefItems (meta : ModelMeta) (uc : Value) (typeDef : TypeDefInfo)
    (items : List Value) : Except PrismaError (List Value) :=
  match items with
  | [] => .ok []
  | x :: xs =>
    match processTypeDefItem meta uc typeDef x with
    | .error e => .error e
    | .ok x2 =>
      match processTypeDefItems meta uc typeDef xs with
      | .error e => .error e
      | .ok xs2 => .ok (x2 :: xs2)
termination_by (sizeOf items, 2, 0)

/-- The per-item body of `setDefaultValueForTypeDefData`: non-object items
are skipped, otherwise every type-def field is processed in order. -/
def processTypeDefItem (meta : ModelMeta) (uc : Value) (typeDef : TypeDefInfo)
    (item : Value) : Except PrismaError Value :=
  if isObjLike item = false then
    .ok item
  else
    processTypeDefFields meta uc typeDef.fields item item
termination_by (sizeOf item, 1, 0)

/-- The field loop of `setDefaultValueForTypeDefData` on one item: `item` is
the item as it was when the loop was entered (the JS field record has unique
names, so reads of sub-values through it agree with the evolving state),
`cur` the evolving state of the item. -/
def processTypeDefFields (meta : ModelMeta) (uc : Value) (flds : List FieldInfo)
    (item cur : Value) : Except PrismaError Value :=
  match flds with
  | [] => .ok cur
  | fld :: rest =>
    if h : isObjLike item = true then
      match
        (if fld.isTypeDef then
          match setDefaultValueForTypeDefData meta uc fld.type (jsGetProp item fld.name) with
          | .error e => .error e
          | .ok v2 =>
            -- the recursion mutated the sub-value in place
            .ok (if jsHasProp item fld.name then jsSetProp cur fld.name v2 else cur)
        else if jsHasProp cur fld.name = false then
          -- set default value if the payload doesn't set the field
          match getDefaultValue uc fld with
          | .error e => .error e
          | .ok dv => .ok (if isUndefined dv = false then jsSetProp cur fld.name dv else cur)
        else
          (.ok cur : Except PrismaError Value)) with
      | .error e => .error e
      | .ok cur2 => processTypeDefFields meta uc rest item cur2
    else
      .ok cur
termination_by (sizeOf item, 0, sizeOf flds)
decreasing_by
  all_goals simp_wf
  · exact Prod.Lex.left _ _ (sizeOf_jsGetProp_lt _ _ h)
  · exact Prod.Lex.right _ (Prod.Lex.right _ (by simp_arith))

end

/-- The per-field body of the handler's `processCreatePayload` loop: type-def
fields recurse into the embedded value (mutated in place); fields already set
by the payload, or without a runtime default value provider, are skipped;
otherwise the default is computed and applied when defined. -/
def processField (U : String → Value → Bool) (meta : ModelMeta) (uc : Value)
    (model : String) (data : List (String × Value)) (fieldInfo : FieldInfo) :
    Except PrismaError (List (String × Value)) :=
  if fieldInfo.isTypeDef then
    match setDefaultValueForTypeDefData meta uc fieldInfo.type (objGet data fieldInfo.name) with
    | .error e => .error e
    | .ok v2 =>
      -- the embedded value was mutated in place
      .ok (if objHas data fieldInfo.name then objSet data fieldInfo.name v2 else data)
  else if objHas data fieldInfo.name then
    -- create payload already sets field value
    .ok data
  else if fieldInfo.defaultValueProvider.isNone then
    -- field doesn't have a runtime default value provider
    .ok data
  else
    match getDefaultValue uc fieldInfo with
    | .error e => .error e
    | .ok defaultValue =>
      if isUndefined defaultValue = false then
        setDefaultValueForModelData U meta fieldInfo model data defaultValue
      else
        .ok data

/-- The `for (const fieldInfo of Object.values(fields))` loop of
`processCreatePayload`, threading the mutated payload. -/
def processFieldsList (U : String → Value → Bool) (meta : ModelMeta) (uc : Value)
    (model : String) : List FieldInfo → List (String × Value) →
    Except PrismaError (List (String × Value))
  | [], data => .ok data
  | fieldInfo :: rest, data =>
    match processField U meta uc model data fieldInfo with
    | .error e => .error e
    | .ok data2 => processFieldsList U meta uc model rest data2

/-- `processCreatePayload` of `DefaultAuthHandler.preprocessWritePayload`:
processes one create-family node (a `create` node, the `create` branch of an
`upsert`, or one element of `createMany.data`) of the cloned payload. -/
def processCreatePayload (U : String → Value → Bool) (meta : ModelMeta) (uc : Value)
    (model : String) (data : List (String × Value)) :
    Except PrismaError (List (String × Value)) :=
  processFieldsList U meta uc model (getFields meta model) data

/-! ### Basic lemmas about object operations -/

theorem objGet_objSet_self (d : List (String × Value)) (k : String) (v : Value) :
    objGet (objSet d k v) k = v := by
  induction d with
  | nil => simp [objSet, objGet]
  | cons e rest ih =>
    obtain ⟨k', v'⟩ := e
    by_cases h : k' = k
    · subst h
      simp [objSet, objGet]
    · simp only [objSet, objGet, beq_iff_eq, if_neg h]
      exact ih

theorem objGet_objSet_ne (d : List (String × Value)) (k j : String) (v : Value)
    (h : k ≠ j) : objGet (objSet d k v) j = objGet d j := by
  induction d with
  | nil => simp [objSet, objGet, h]
  | cons e rest ih =>
    obtain ⟨k', v'⟩ := e
    by_cases hk : k' = k
    · subst hk
      simp [objSet, objGet, h]
    · simp only [objSet, objGet, beq_iff_eq, if_neg hk]
      by_cases hj : k' = j
      · simp [hj]
      · simp only [if_neg hj]
        exact ih

theorem objHas_objSet_self (d : List (String × Value)) (k : String) (v : Value) :
    objHas (objSet d k v) k = true := by
  induction d with
  | nil => simp [objSet, objHas]
  | cons e rest ih =>
    obtain ⟨k', v'⟩ := e
    by_cases h : k' = k
    · subst h
      simp [objSet, objHas]
    · simp only [objSet, objHas, beq_iff_eq, if_neg h]
      simp [objHas, ih]

theorem objHas_objSet_ne (d : List (String × Value)) (k j : String) (v : Value)
    (h : k ≠ j) : objHas (objSet d k v) j = objHas d j := by
  induction d with
  | nil => simp [objSet, objHas, h]
  | cons e rest ih =>
    obtain ⟨k', v'⟩ := e
    by_cases hk : k' = k
    · subst hk
      simp [objSet, objHas, h]
    · simp [objSet, objHas, hk, ih]

theorem objSet_objGet_self (d : List (String × Value)) (k : String)
    (h : objHas d k = true) : objSet d k (objGet d k) = d := by
  induction d with
  | nil => simp [objHas] at h
  | cons e rest ih =>
    obtain ⟨k', v'⟩ := e
    by_cases hk : k' = k
    · subst hk
      simp [objSet, objGet]
    · simp only [objHas, Bool.or_eq_true, beq_iff_eq, hk, false_or] at h
      simp [objSet, objGet, hk, ih h]

theorem objGet_eq_undef_of_not_has (d : List (String × Value)) (k : String)
    (h : objHas d k = false) : objGet d k = .undefined := by
  induction d with
  | nil => simp [objGet]
  | cons e rest ih =>
    obtain ⟨k', v'⟩ := e
    simp only [objHas, Bool.or_eq_false_iff, beq_eq_false_iff_ne] at h
    simp only [objGet, beq_iff_eq, if_neg h.1]
    exact ih h.2

theorem requireField_name (meta : ModelMeta) (model fn : String) (rf : FieldInfo)
    (h : requireField meta model fn = .ok rf) : rf.name = fn := by
  unfold requireField at h
  cases hf : (getFields meta model).find? (fun f => f.name == fn) with
  | none => rw [hf] at h; exact absurd h (by simp)
  | some g =>
    rw [hf] at h
    have hg : g = rf := by injection h
    subst hg
    have := List.find?_some hf
    simpa using this

/-! ### Characterization of single field-processing steps -/

theorem processField_skip (U : String → Value → Bool) (meta : ModelMeta) (uc : Value)
    (model : String) (data : List (String × Value)) (f : FieldInfo)
    (htd : f.isTypeDef = false)
    (h : objHas data f.name = true ∨ f.defaultValueProvider = none) :
    processField U meta uc model data f = .ok data := by
  unfold processField
  rcases h with h | h
  · simp [htd, h]
  · by_cases hh : objHas data f.name = true
    · simp [htd, hh]
    · simp [htd, hh, h]

theorem processField_trigger (U : String → Value → Bool) (meta : ModelMeta) (uc : Value)
    (model : String) (data : List (String × Value)) (f : FieldInfo) (p : Value → Value)
    (htd : f.isTypeDef = false)
    (hunset : objHas data f.name = false)
    (hprov : f.defaultValueProvider = some p)
    (huc : truthy uc = true)
    (hdef : isUndefined (p uc) = false) :
    processField U meta uc model data f =
      setDefaultValueForModelData U meta f model data (p uc) := by
  unfold processField
  simp [htd, hunset, hprov, getDefaultValue, huc, hdef]

theorem processField_trigger_noUser (U : String → Value → Bool) (meta : ModelMeta)
    (uc : Value) (model : String) (data : List (String × Value)) (f : FieldInfo)
    (p : Value → Value)
    (htd : f.isTypeDef = false)
    (hunset : objHas data f.name = false)
    (hprov : f.defaultValueProvider = some p)
    (huc : truthy uc = false) :
    processField U meta uc model data f =
      .error (.validationError (defaultValueErrorMsg f.name)) := by
  unfold processField
  simp [htd, hunset, hprov, getDefaultValue, huc]

theorem setDefault_skip_relationSet (U : String → Value → Bool) (meta : ModelMeta)
    (f : FieldInfo) (model : String) (data : List (String × Value)) (v : Value)
    (hfk : f.isForeignKey = true)
    (hrel : fkRelationSet f data = true) :
    setDefaultValueForModelData U meta f model data v = .ok data := by
  unfold setDefaultValueForModelData
  simp [hfk, hrel]

theorem setDefault_scalar (U : String → Value → Bool) (meta : ModelMeta)
    (f : FieldInfo) (model : String) (data : List (String × Value)) (v : Value)
    (h : f.isForeignKey = false ∨
      (fkRelationSet f data = false ∧ U model (.obj data) = true)) :
    setDefaultValueForModelData U meta f model data v = .ok (objSet data f.name v) := by
  unfold setDefaultValueForModelData
  rcases h with h | ⟨h1, h2⟩
  · simp [h]
  · simp [h1, h2]

theorem setDefault_connect (U : String → Value → Bool) (meta : ModelMeta)
    (f : FieldInfo) (model : String) (data : List (String × Value)) (v : Value)
    (rn : String) (rf : FieldInfo) (opp : String)
    (hfk : f.isForeignKey = true)
    (hrel : f.relationField = some rn)
    (hrn : rn ≠ "")
    (hnoset : objHas data rn = false)
    (hU : U model (.obj data) = false)
    (hrf : requireField meta model rn = .ok rf)
    (hopp : getOppositeFkFieldName rf f = some opp) :
    setDefaultValueForModelData U meta f model data v =
      .ok (objSet data rn (.obj [("connect", .obj [(opp, v)])])) := by
  have hname : rf.name = rn := requireField_name meta model rn rf hrf
  have hrelset : fkRelationSet f data = false := by
    simp [fkRelationSet, hrel, hnoset]
  have hcur : objGet data rn = .undefined :=
    objGet_eq_undef_of_not_has data rn hnoset
  have hbeq : (rn == "") = false := by simp [hrn]
  unfold setDefaultValueForModelData
  rw [hrel]
  simp only [hfk, hrelset, hU, Bool.and_false, Bool.not_false, Bool.and_true,
    Bool.false_eq_true, if_false, hbeq]
  rw [hrf]
  simp only [hname, hopp, if_true, hcur, Bool.false_eq_true, if_false]
  simp [jsGetProp, truthy]
theorem processField_trigger_undefined (U : String → Value → Bool) (meta : ModelMeta)
    (uc : Value) (model : String) (data : List (String × Value)) (f : FieldInfo)
    (p : Value → Value)
    (htd : f.isTypeDef = false)
    (hunset : objHas data f.name = false)
    (hprov : f.defaultValueProvider = some p)
    (huc : truthy uc = true)
    (hdef : isUndefined (p uc) = true) :
    processField U meta uc model data f = .ok data := by
  unfold processField
  simp [htd, hunset, hprov, getDefaultValue, huc, hdef]

theorem setDefault_fk_normal_inv (U : String → Value → Bool) (meta : ModelMeta)
    (f : FieldInfo) (model : String) (data d2 : List (String × Value)) (v : Value)
    (hfk : f.isForeignKey = true)
    (hrelset : fkRelationSet f data = false)
    (hU : U model (.obj data) = false)
    (hok : setDefaultValueForModelData U meta f model data v = .ok d2) :
    ∃ rn rf opp, f.relationField = some rn ∧ rn ≠ "" ∧ objHas data rn = false ∧
      requireField meta model rn = .ok rf ∧ rf.name = rn ∧
      getOppositeFkFieldName rf f = some opp ∧
      d2 = objSet data rn (.obj [("connect", .obj [(opp, v)])]) := by
  cases hrel : f.relationField with
  | none =>
    exfalso
    unfold setDefaultValueForModelData at hok
    rw [hrel] at hok
    simp [hfk, hrelset, hU] at hok
  | some rn =>
    by_cases hrn : rn = ""
    · exfalso
      subst hrn
      unfold setDefaultValueForModelData at hok
      rw [hrel] at hok
      simp [hfk, hrelset, hU] at hok
    · have hnoset : objHas data rn = false := by
        simp only [fkRelationSet, hrel, Bool.and_eq_false_iff, bne_eq_false_iff_eq] at hrelset
        rcases hrelset with h | h
        · exact absurd h hrn
        · exact h
      cases hrf : requireField meta model rn with
      | error e =>
        exfalso
        unfold setDefaultValueForModelData at hok
        rw [hrel] at hok
        simp only [hfk, hrelset, hU, Bool.and_false, Bool.not_false, Bool.and_true,
          Bool.false_eq_true, if_false, show (rn == "") = false by simp [hrn]] at hok
        rw [hrf] at hok
        simp at hok
      | ok rf =>
        cases hopp : getOppositeFkFieldName rf f with
        | none =>
          exfalso
          have hname : rf.name = rn := requireField_name meta model rn rf hrf
          have hcur : objGet data rn = .undefined := objGet_eq_undef_of_not_has data rn hnoset
          unfold setDefaultValueForModelData at hok
          rw [hrel] at hok
          simp only [hfk, hrelset, hU, Bool.and_false, Bool.not_false, Bool.and_true,
            Bool.false_eq_true, if_false, show (rn == "") = false by simp [hrn]] at hok
          rw [hrf] at hok
          simp only [hname, hopp, hcur] at hok
          simp at hok
        | some opp =>
          have heq := setDefault_connect U meta f model data v rn rf opp hfk hrel hrn
            hnoset hU hrf hopp
          rw [heq] at hok
          refine ⟨rn, rf, opp, rfl, hrn, hnoset, hrf,
            requireField_name meta model rn rf hrf, hopp, ?_⟩
          injection hok with h
          exact h.symm

theorem processField_fkGuard (U : String → Value → Bool) (meta : ModelMeta) (uc : Value)
    (model : String) (data d2 : List (String × Value)) (f : FieldInfo) (rn : String)
    (htd : f.isTypeDef = false)
    (hfk : f.isForeignKey = true)
    (hrel : f.relationField = some rn)
    (hrn : rn ≠ "")
    (hset : objHas data rn = true)
    (hok : processField U meta uc model data f = .ok d2) :
    d2 = data := by
  have hrelset : fkRelationSet f data = true := by
    simp [fkRelationSet, hrel, hset, hrn]
  by_cases hh : objHas data f.name = true
  · rw [processField_skip U meta uc model data f htd (Or.inl hh)] at hok
    injection hok with h
    exact h.symm
  · cases hprov : f.defaultValueProvider with
    | none =>
      rw [processField_skip U meta uc model data f htd (Or.inr hprov)] at hok
      injection hok with h
      exact h.symm
    | some p =>
      by_cases huc : truthy uc = true
      · by_cases hdef : isUndefined (p uc) = true
        · rw [processField_trigger_undefined U meta uc model data f p htd
            (by simpa using hh) hprov huc hdef] at hok
          injection hok with h
          exact h.symm
        · rw [processField_trigger U meta uc model data f p htd (by simpa using hh)
            hprov huc (by simpa using hdef)] at hok
          rw [setDefault_skip_relationSet U meta f model data (p uc) hfk hrelset] at hok
          injection hok with h
          exact h.symm
      · rw [processField_trigger_noUser U meta uc model data f p htd (by simpa using hh)
          hprov (by simpa using huc)] at hok
        exact absurd hok (by simp)
theorem processField_preserve_absent (U : String → Value → Bool) (meta : ModelMeta)
    (uc : Value) (model : String) (data d2 : List (String × Value)) (g : FieldInfo)
    (k : String)
    (hok : processField U meta uc model data g = .ok d2)
    (habs : objHas data k = false)
    (hname : g.name = k → g.isTypeDef = true ∨ g.defaultValueProvider = none)
    (hrelk : ∀ r, g.relationField = some r → r ≠ k) :
    objHas d2 k = false ∧ objGet d2 k = objGet data k := by
  by_cases htd : g.isTypeDef = true
  · unfold processField at hok
    simp only [htd, if_true] at hok
    cases hrec : setDefaultValueForTypeDefData meta uc g.type (objGet data g.name) with
    | error e => rw [hrec] at hok; exact absurd hok (by simp)
    | ok v2 =>
      rw [hrec] at hok
      simp only [Except.ok.injEq] at hok
      by_cases hh : objHas data g.name = true
      · have hne : g.name ≠ k := fun he => by rw [he] at hh; rw [hh] at habs; cases habs
        rw [if_pos hh] at hok
        subst hok
        exact ⟨by rw [objHas_objSet_ne data g.name k v2 hne]; exact habs,
          objGet_objSet_ne data g.name k v2 hne⟩
      · rw [if_neg hh] at hok
        subst hok
        exact ⟨habs, rfl⟩
  · have htd' : g.isTypeDef = false := by simpa using htd
    by_cases hh : objHas data g.name = true
    · rw [processField_skip U meta uc model data g htd' (Or.inl hh)] at hok
      injection hok with h
      subst h
      exact ⟨habs, rfl⟩
    · cases hprov : g.defaultValueProvider with
      | none =>
        rw [processField_skip U meta uc model data g htd' (Or.inr hprov)] at hok
        injection hok with h
        subst h
        exact ⟨habs, rfl⟩
      | some p =>
        have hgnk : g.name ≠ k := by
          intro he
          rcases hname he with h | h
          · exact absurd h htd
          · rw [hprov] at h; cases h
        by_cases huc : truthy uc = true
        · by_cases hdef : isUndefined (p uc) = true
          · rw [processField_trigger_undefined U meta uc model data g p htd'
              (by simpa using hh) hprov huc hdef] at hok
            injection hok with h
            subst h
            exact ⟨habs, rfl⟩
          · rw [processField_trigger U meta uc model data g p htd' (by simpa using hh)
              hprov huc (by simpa using hdef)] at hok
            by_cases hfk : g.isForeignKey = true
            · by_cases hrelset : fkRelationSet g data = true
              · rw [setDefault_skip_relationSet U meta g model data (p uc) hfk hrelset] at hok
                injection hok with h
                subst h
                exact ⟨habs, rfl⟩
              · by_cases hU : U model (.obj data) = true
                · rw [setDefault_scalar U meta g model data (p uc)
                    (Or.inr ⟨by simpa using hrelset, hU⟩)] at hok
                  injection hok with h
                  subst h
                  exact ⟨by rw [objHas_objSet_ne data g.name k (p uc) hgnk]; exact habs,
                    objGet_objSet_ne data g.name k (p uc) hgnk⟩
                · obtain ⟨rn, rf, opp, hrel, hrn, hnoset, hrf, hrfn, hopp, hd2⟩ :=
                    setDefault_fk_normal_inv U meta g model data d2 (p uc) hfk
                      (by simpa using hrelset) (by simpa using hU) hok
                  have hrnk : rn ≠ k := hrelk rn hrel
                  subst hd2
                  exact ⟨by rw [objHas_objSet_ne data rn k _ hrnk]; exact habs,
                    objGet_objSet_ne data rn k _ hrnk⟩
            · rw [setDefault_scalar U meta g model data (p uc)
                (Or.inl (by simpa using hfk))] at hok
              injection hok with h
              subst h
              exact ⟨by rw [objHas_objSet_ne data g.name k (p uc) hgnk]; exact habs,
                objGet_objSet_ne data g.name k (p uc) hgnk⟩
        · rw [processField_trigger_noUser U meta uc model data g p htd' (by simpa using hh)
            hprov (by simpa using huc)] at hok
          exact absurd hok (by simp)

theorem processField_preserve_present (U : String → Value → Bool) (meta : ModelMeta)
    (uc : Value) (model : String) (data d2 : List (String × Value)) (g : FieldInfo)
    (k : String)
    (hok : processField U meta uc model data g = .ok d2)
    (hpres : objHas data k = true)
    (hname : g.name = k → g.isTypeDef = false) :
    objHas d2 k = true ∧ objGet d2 k = objGet data k := by
  by_cases htd : g.isTypeDef = true
  · have hgnk : g.name ≠ k := fun he => by rw [hname he] at htd; cases htd
    unfold processField at hok
    simp only [htd, if_true] at hok
    cases hrec : setDefaultValueForTypeDefData meta uc g.type (objGet data g.name) with
    | error e => rw [hrec] at hok; exact absurd hok (by simp)
    | ok v2 =>
      rw [hrec] at hok
      simp only [Except.ok.injEq] at hok
      by_cases hh : objHas data g.name = true
      · rw [if_pos hh] at hok
        subst hok
        exact ⟨by rw [objHas_objSet_ne data g.name k v2 hgnk]; exact hpres,
          objGet_objSet_ne data g.name k v2 hgnk⟩
      · rw [if_neg hh] at hok
        subst hok
        exact ⟨hpres, rfl⟩
  · have htd' : g.isTypeDef = false := by simpa using htd
    by_cases hh : objHas data g.name = true
    · rw [processField_skip U meta uc model data g htd' (Or.inl hh)] at hok
      injection hok with h
      subst h
      exact ⟨hpres, rfl⟩
    · have hgnk : g.name ≠ k := fun he => by rw [he] at hh; exact hh hpres
      cases hprov : g.defaultValueProvider with
      | none =>
        rw [processField_skip U meta uc model data g htd' (Or.inr hprov)] at hok
        injection hok with h
        subst h
        exact ⟨hpres, rfl⟩
      | some p =>
        by_cases huc : truthy uc = true
        · by_cases hdef : isUndefined (p uc) = true
          · rw [processField_trigger_undefined U meta uc model data g p htd'
              (by simpa using hh) hprov huc hdef] at hok
            injection hok with h
            subst h
            exact ⟨hpres, rfl⟩
          · rw [processField_trigger U meta uc model data g p htd' (by simpa using hh)
              hprov huc (by simpa using hdef)] at hok
            by_cases hfk : g.isForeignKey = true
            · by_cases hrelset : fkRelationSet g data = true
              · rw [setDefault_skip_relationSet U meta g model data (p uc) hfk hrelset] at hok
                injection hok with h
                subst h
                exact ⟨hpres, rfl⟩
              · by_cases hU : U model (.obj data) = true
                · rw [setDefault_scalar U meta g model data (p uc)
                    (Or.inr ⟨by simpa using hrelset, hU⟩)] at hok
                  injection hok with h
                  subst h
                  exact ⟨by rw [objHas_objSet_ne data g.name k (p uc) hgnk]; exact hpres,
                    objGet_objSet_ne data g.name k (p uc) hgnk⟩
                · obtain ⟨rn, rf, opp, hrel, hrn, hnoset, hrf, hrfn, hopp, hd2⟩ :=
                    setDefault_fk_normal_inv U meta g model data d2 (p uc) hfk
                      (by simpa using hrelset) (by simpa using hU) hok
                  have hrnk : rn ≠ k := fun he => by rw [he] at hnoset; rw [hpres] at hnoset; cases hnoset
                  subst hd2
                  exact ⟨by rw [objHas_objSet_ne data rn k _ hrnk]; exact hpres,
                    objGet_objSet_ne data rn k _ hrnk⟩
            · rw [setDefault_scalar U meta g model data (p uc)
                (Or.inl (by simpa using hfk))] at hok
              injection hok with h
              subst h
              exact ⟨by rw [objHas_objSet_ne data g.name k (p uc) hgnk]; exact hpres,
                objGet_objSet_ne data g.name k (p uc) hgnk⟩
        · rw [processField_trigger_noUser U meta uc model data g p htd' (by simpa using hh)
            hprov (by simpa using huc)] at hok
          exact absurd hok (by simp)

/-! ### Lemmas about the field-processing loop -/

theorem processFieldsList_append_inv (U : String → Value → Bool) (meta : ModelMeta)
    (uc : Value) (model : String) (l1 l2 : List FieldInfo)
    (d d2 : List (String × Value))
    (hok : processFieldsList U meta uc model (l1 ++ l2) d = .ok d2) :
    ∃ dm, processFieldsList U meta uc model l1 d = .ok dm ∧
      processFieldsList U meta uc model l2 dm = .ok d2 := by
  induction l1 generalizing d with
  | nil => exact ⟨d, rfl, hok⟩
  | cons g rest ih =>
    rw [List.cons_append] at hok
    unfold processFieldsList at hok
    cases hstep : processField U meta uc model d g with
    | error e => rw [hstep] at hok; exact absurd hok (by simp)
    | ok dm1 =>
      rw [hstep] at hok
      obtain ⟨dm, h1, h2⟩ := ih dm1 hok
      refine ⟨dm, ?_, h2⟩
      unfold processFieldsList
      rw [hstep]
      exact h1

theorem processFieldsList_cons_inv (U : String → Value → Bool) (meta : ModelMeta)
    (uc : Value) (model : String) (g : FieldInfo) (rest : List FieldInfo)
    (d d2 : List (String × Value))
    (hok : processFieldsList U meta uc model (g :: rest) d = .ok d2) :
    ∃ dm, processField U meta uc model d g = .ok dm ∧
      processFieldsList U meta uc model rest dm = .ok d2 := by
  unfold processFieldsList at hok
  cases hstep : processField U meta uc model d g with
  | error e => rw [hstep] at hok; exact absurd hok (by simp)
  | ok dm => rw [hstep] at hok; exact ⟨dm, rfl, hok⟩

theorem processFieldsList_preserve_absent (U : String → Value → Bool) (meta : ModelMeta)
    (uc : Value) (model : String) (gs : List FieldInfo) (d d2 : List (String × Value))
    (k : String)
    (hok : processFieldsList U meta uc model gs d = .ok d2)
    (habs : objHas d k = false)
    (hgs : ∀ g ∈ gs, (g.name = k → g.isTypeDef = true ∨ g.defaultValueProvider = none) ∧
      ∀ r, g.relationField = some r → r ≠ k) :
    objHas d2 k = false ∧ objGet d2 k = objGet d k := by
  induction gs generalizing d with
  | nil =>
    unfold processFieldsList at hok
    injection hok with h
    subst h
    exact ⟨habs, rfl⟩
  | cons g rest ih =>
    obtain ⟨dm, hstep, hrest⟩ := processFieldsList_cons_inv U meta uc model g rest d d2 hok
    obtain ⟨hg1, hg2⟩ := hgs g (List.mem_cons_self g rest)
    obtain ⟨habs1, hget1⟩ := processField_preserve_absent U meta uc model d dm g k
      hstep habs hg1 hg2
    obtain ⟨habs2, hget2⟩ := ih dm hrest habs1 (fun g' hg' => hgs g' (List.mem_cons_of_mem g hg'))
    exact ⟨habs2, hget2.trans hget1⟩

theorem processFieldsList_preserve_present (U : String → Value → Bool) (meta : ModelMeta)
    (uc : Value) (model : String) (gs : List FieldInfo) (d d2 : List (String × Value))
    (k : String)
    (hok : processFieldsList U meta uc model gs d = .ok d2)
    (hpres : objHas d k = true)
    (hgs : ∀ g ∈ gs, g.name = k → g.isTypeDef = false) :
    objHas d2 k = true ∧ objGet d2 k = objGet d k := by
  induction gs generalizing d with
  | nil =>
    unfold processFieldsList at hok
    injection hok with h
    subst h
    exact ⟨hpres, rfl⟩
  | cons g rest ih =>
    obtain ⟨dm, hstep, hrest⟩ := processFieldsList_cons_inv U meta uc model g rest d d2 hok
    obtain ⟨hp1, hget1⟩ := processField_preserve_present U meta uc model d dm g k
      hstep hpres (hgs g (List.mem_cons_self g rest))
    obtain ⟨hp2, hget2⟩ := ih dm hrest hp1 (fun g' hg' => hgs g' (List.mem_cons_of_mem g hg'))
    exact ⟨hp2, hget2.trans hget1⟩

theorem processFieldsList_skip (U : String → Value → Bool) (meta : ModelMeta)
    (uc : Value) (model : String) (gs : List FieldInfo) (d : List (String × Value))
    (hgs : ∀ g ∈ gs, g.isTypeDef = false ∧
      (objHas d g.name = true ∨ g.defaultValueProvider = none)) :
    processFieldsList U meta uc model gs d = .ok d := by
  induction gs with
  | nil => rfl
  | cons g rest ih =>
    obtain ⟨h1, h2⟩ := hgs g (List.mem_cons_self g rest)
    unfold processFieldsList
    rw [processField_skip U meta uc model d g h1 h2]
    exact ih (fun g' hg' => hgs g' (List.mem_cons_of_mem g hg'))

theorem processFieldsList_cons_eq (U : String → Value → Bool) (meta : ModelMeta)
    (uc : Value) (model : String) (g : FieldInfo) (rest : List FieldInfo)
    (d dm : List (String × Value))
    (hstep : processField U meta uc model d g = .ok dm) :
    processFieldsList U meta uc model (g :: rest) d =
      processFieldsList U meta uc model rest dm := by
  conv_lhs => unfold processFieldsList
  rw [hstep]

theorem processFieldsList_append (U : String → Value → Bool) (meta : ModelMeta)
    (uc : Value) (model : String) (l1 l2 : List FieldInfo)
    (d dm : List (String × Value))
    (h1 : processFieldsList U meta uc model l1 d = .ok dm) :
    processFieldsList U meta uc model (l1 ++ l2) d =
      processFieldsList U meta uc model l2 dm := by
  induction l1 generalizing d with
  | nil =>
    unfold processFieldsList at h1
    injection h1 with h
    subst h
    rfl
  | cons g rest ih =>
    obtain ⟨dm1, hstep, hrest⟩ := processFieldsList_cons_inv U meta uc model g rest d dm h1
    rw [List.cons_append,
      processFieldsList_cons_eq U meta uc model g (rest ++ l2) d dm1 hstep]
    exact ih dm1 hrest

theorem processFieldsList_preserve_all (U : String → Value → Bool) (meta : ModelMeta)
    (uc : Value) (model : String) (gs : List FieldInfo) (d d2 : List (String × Value))
    (k : String)
    (hok : processFieldsList U meta uc model gs d = .ok d2)
    (hgs : ∀ g ∈ gs, g.name ≠ k ∧ ∀ r, g.relationField = some r → r ≠ k) :
    objHas d2 k = objHas d k ∧ objGet d2 k = objGet d k := by
  by_cases hp : objHas d k = true
  · obtain ⟨h1, h2⟩ := processFieldsList_preserve_present U meta uc model gs d d2 k hok hp
      (fun g hg he => absurd he (hgs g hg).1)
    rw [hp]
    exact ⟨h1, h2⟩
  · have hp' : objHas d k = false := by simpa using hp
    obtain ⟨h1, h2⟩ := processFieldsList_preserve_absent U meta uc model gs d d2 k hok hp'
      (fun g hg => ⟨fun he => absurd he (hgs g hg).1, (hgs g hg).2⟩)
    rw [hp']
    exact ⟨h1, h2⟩

theorem getOppositeFkFieldName_mem (rf f : FieldInfo) (opp : String)
    (hopp : getOppositeFkFieldName rf f = some opp) :
    ∃ mapping, rf.foreignKeyMapping = some mapping ∧ (opp, f.name) ∈ mapping := by
  unfold getOppositeFkFieldName at hopp
  cases hm : rf.foreignKeyMapping with
  | none => rw [hm] at hopp; cases hopp
  | some mapping =>
    rw [hm] at hopp
    have hopp2 : (mapping.find? (fun e => e.2 == f.name)).map (fun e => e.1) = some opp :=
      hopp
    cases hf : mapping.find? (fun e => e.2 == f.name) with
    | none => rw [hf] at hopp2; cases hopp2
    | some e =>
      rw [hf] at hopp2
      injection hopp2 with h
      have hmem : e ∈ mapping := List.mem_of_find?_eq_some hf
      have hsnd : e.2 = f.name := by simpa using List.find?_some hf
      refine ⟨mapping, rfl, ?_⟩
      have : e = (opp, f.name) := by
        cases e
        simp_all
      rw [← this]
      exact hmem

theorem processField_fkGuard_ok (U : String → Value → Bool) (meta : ModelMeta)
    (uc : Value) (model : String) (data : List (String × Value)) (f : FieldInfo)
    (rn : String)
    (htd : f.isTypeDef = false)
    (hfk : f.isForeignKey = true)
    (hrel : f.relationField = some rn)
    (hrn : rn ≠ "")
    (hset : objHas data rn = true)
    (huc : truthy uc = true) :
    processField U meta uc model data f = .ok data := by
  have hrelset : fkRelationSet f data = true := by
    simp [fkRelationSet, hrel, hset, hrn]
  by_cases hh : objHas data f.name = true
  · exact processField_skip U meta uc model data f htd (Or.inl hh)
  · cases hprov : f.defaultValueProvider with
    | none => exact processField_skip U meta uc model data f htd (Or.inr hprov)
    | some p =>
      by_cases hdef : isUndefined (p uc) = true
      · exact processField_trigger_undefined U meta uc model data f p htd
          (by simpa using hh) hprov huc hdef
      · rw [processField_trigger U meta uc model data f p htd (by simpa using hh)
          hprov huc (by simpa using hdef)]
        exact setDefault_skip_relationSet U meta f model data (p uc) hfk hrelset

theorem processTypeDefItems_skip (meta : ModelMeta) (uc : Value)
    (typeDef : TypeDefInfo) (items : List Value)
    (hitems : ∀ x ∈ items, isObjLike x = false) :
    processTypeDefItems meta uc typeDef items = .ok items := by
  induction items with
  | nil => unfold processTypeDefItems; rfl
  | cons x xs ih =>
    unfold processTypeDefItems
    have hx : processTypeDefItem meta uc typeDef x = .ok x := by
      unfold processTypeDefItem
      rw [if_pos (hitems x (List.mem_cons_self x xs))]
    rw [hx, ih (fun y hy => hitems y (List.mem_cons_of_mem x hy))]

/-! ### Claim theorems -/

/-- Claim C3: for a create-family payload containing a field whose default
value provider must be evaluated (the field is not set and has a provider)
while the caller identity is absent (falsy), preprocessing of the create node
fails with a `ValidationError` whose message names that field; the error
result means no processed payload is produced, so nothing reaches the wrapped
client.  The earlier fields of the model are assumed not to trigger an
evaluation of their own (they are set, or have no provider). -/
theorem claim3_no_identity_validation_error
    (U : String → Value → Bool) (meta : ModelMeta) (uc : Value) (model : String)
    (data : List (String × Value)) (pre post : List FieldInfo) (f : FieldInfo)
    (p : Value → Value)
    (huc : truthy uc = false)
    (hfields : getFields meta model = pre ++ f :: post)
    (hpre : ∀ g ∈ pre, g.isTypeDef = false ∧
      (objHas data g.name = true ∨ g.defaultValueProvider = none))
    (htd : f.isTypeDef = false)
    (hunset : objHas data f.name = false)
    (hprov : f.defaultValueProvider = some p) :
    processCreatePayload U meta uc model data =
      .error (.validationError (defaultValueErrorMsg f.name)) := by
  unfold processCreatePayload
  rw [hfields]
  rw [processFieldsList_append U meta uc model pre (f :: post) data data
    (processFieldsList_skip U meta uc model pre data hpre)]
  unfold processFieldsList
  rw [processField_trigger_noUser U meta uc model data f p htd hunset hprov huc]

/-- Claim C4: when a foreign-key field's identity default is injected and the
relation field is not already set, an unsafe write context sets the scalar
foreign-key field directly to the value, while a normal context produces
`connect` on the relation field, keyed by the opposite foreign-key field name
obtained by reverse lookup in the relation's `foreignKeyMapping` (the entry
whose mapped value equals this field's name) with the same value — so both
shapes pin the opposite model's `opp` field to the same provider value,
identifying the same logical row. -/
theorem claim4_fk_unsafe_scalar_else_connect
    (U : String → Value → Bool) (meta : ModelMeta) (f : FieldInfo) (model : String)
    (data : List (String × Value)) (v : Value) (rn : String) (rf : FieldInfo)
    (opp : String)
    (hfk : f.isForeignKey = true)
    (hrel : f.relationField = some rn)
    (hrn : rn ≠ "")
    (hnoset : objHas data rn = false)
    (hrf : requireField meta model rn = .ok rf)
    (hopp : getOppositeFkFieldName rf f = some opp) :
    (U model (.obj data) = true →
      setDefaultValueForModelData U meta f model data v = .ok (objSet data f.name v)) ∧
    (U model (.obj data) = false →
      setDefaultValueForModelData U meta f model data v =
        .ok (objSet data rn (.obj [("connect", .obj [(opp, v)])])) ∧
      ∃ mapping, rf.foreignKeyMapping = some mapping ∧ (opp, f.name) ∈ mapping) := by
  constructor
  · intro hU
    exact setDefault_scalar U meta f model data v
      (Or.inr ⟨by simp [fkRelationSet, hrel, hnoset], hU⟩)
  · intro hU
    exact ⟨setDefault_connect U meta f model data v rn rf opp hfk hrel hrn hnoset hU hrf hopp,
      getOppositeFkFieldName_mem rf f opp hopp⟩

/-- Claim C5: when a foreign-key field with an identity default has its
relation field already targeted in the payload, no injection occurs for it:
in the processed create node both the relation field's sub-payload and the
foreign-key field itself are unchanged from the input (the other fields of
the model are assumed not to write to these two keys). -/
theorem claim5_relation_targeted_no_injection
    (U : String → Value → Bool) (meta : ModelMeta) (uc : Value) (model : String)
    (data data' : List (String × Value)) (pre post : List FieldInfo)
    (f : FieldInfo) (rn : String)
    (hfields : getFields meta model = pre ++ f :: post)
    (htd : f.isTypeDef = false)
    (hfk : f.isForeignKey = true)
    (hrel : f.relationField = some rn)
    (hrn : rn ≠ "")
    (hset : objHas data rn = true)
    (hframe : ∀ g ∈ pre ++ post, (g.name = rn → g.isTypeDef = false) ∧
      g.name ≠ f.name ∧ ∀ r, g.relationField = some r → r ≠ f.name)
    (hok : processCreatePayload U meta uc model data = .ok data') :
    objGet data' rn = objGet data rn ∧ objHas data' rn = true ∧
    objGet data' f.name = objGet data f.name ∧
    objHas data' f.name = objHas data f.name := by
  unfold processCreatePayload at hok
  rw [hfields] at hok
  obtain ⟨dm, hpre, hrest⟩ :=
    processFieldsList_append_inv U meta uc model pre (f :: post) data data' hok
  obtain ⟨dmf, hstep, hpost⟩ :=
    processFieldsList_cons_inv U meta uc model f post dm data' hrest
  have hpre_mem := fun g hg => hframe g (List.mem_append_left post hg)
  have hpost_mem := fun g hg => hframe g (List.mem_append_right pre hg)
  obtain ⟨hrn1, hrnget1⟩ := processFieldsList_preserve_present U meta uc model pre
    data dm rn hpre hset (fun g hg => (hpre_mem g hg).1)
  obtain ⟨hfh1, hfget1⟩ := processFieldsList_preserve_all U meta uc model pre
    data dm f.name hpre (fun g hg => ⟨(hpre_mem g hg).2.1, (hpre_mem g hg).2.2⟩)
  have hdmf : dmf = dm :=
    processField_fkGuard U meta uc model dm dmf f rn htd hfk hrel hrn hrn1 hstep
  rw [hdmf] at hpost
  obtain ⟨hrn2, hrnget2⟩ := processFieldsList_preserve_present U meta uc model post
    dm data' rn hpost hrn1 (fun g hg => (hpost_mem g hg).1)
  obtain ⟨hfh2, hfget2⟩ := processFieldsList_preserve_all U meta uc model post
    dm data' f.name hpost (fun g hg => ⟨(hpost_mem g hg).2.1, (hpost_mem g hg).2.2⟩)
  exact ⟨hrnget2.trans hrnget1, hrn2, hfget2.trans hfget1, hfh2.trans hfh1⟩

/-- Claim C6: when the translation of a foreign-key default into a relational
`connect` cannot resolve its metadata — the foreign-key field has no relation
field, or the relation's `foreignKeyMapping` has no entry whose value equals
the foreign-key field's name — preprocessing fails with a thrown
configuration error whose message names the offending field, instead of
producing a payload. -/
theorem claim6_unresolved_fk_metadata_config_error
    (U : String → Value → Bool) (meta : ModelMeta) (f : FieldInfo) (model : String)
    (data : List (String × Value)) (v : Value)
    (hfk : f.isForeignKey = true)
    (hU : U model (.obj data) = false)
    (hguard : fkRelationSet f data = false) :
    (f.relationField = none →
      setDefaultValueForModelData U meta f model data v =
        .error (.configError (fkNoRelationFieldMsg f.name))) ∧
    (∀ rn rf, f.relationField = some rn → rn ≠ "" →
      requireField meta model rn = .ok rf →
      getOppositeFkFieldName rf f = none →
      setDefaultValueForModelData U meta f model data v =
        .error (.configError (fkNoOppositeFieldMsg f.name rn))) := by
  constructor
  · intro hrel
    unfold setDefaultValueForModelData
    rw [hrel]
    simp [hfk, hguard, hU]
  · intro rn rf hrel hrn hrf hopp
    unfold setDefaultValueForModelData
    rw [hrel]
    simp only [hfk, hguard, hU, Bool.and_false, Bool.not_false, Bool.and_true,
      Bool.false_eq_true, if_false, show (rn == "") = false by simp [hrn]]
    rw [hrf]
    simp [hopp]

/-- The field's computed default value appears in a processed create node:
directly as the scalar field, or inside the derived `connect` object of the
field's relation field. -/
def defaultInjected (d : List (String × Value)) (f : FieldInfo) (v : Value) : Prop :=
  objGet d f.name = v ∨
  ∃ rn opp, f.relationField = some rn ∧
    jsGetProp (jsGetProp (objGet d rn) "connect") opp = v

/-- Claim C1 (amended): in a processed create-family node, every non-type-def
field with an identity-dependent default value provider that the payload does
not set is set — directly as a scalar, or via the derived `connect` — to
`provider(identity)`, provided the caller identity is present (truthy), the
provider returns a defined value, and — the amendment — the field is not a
foreign key whose relation field is already set when the field is processed
(here: not set in the input, and no other field of the model writes to this
field's name or to its relation field's key; the unsafe-mutate predicate is
assumed constant on this model's payloads). -/
theorem claim1_default_injected
    (U : String → Value → Bool) (meta : ModelMeta) (uc : Value) (model : String)
    (data data' : List (String × Value)) (pre post : List FieldInfo)
    (f : FieldInfo) (p : Value → Value) (c : Bool)
    (huc : truthy uc = true)
    (hfields : getFields meta model = pre ++ f :: post)
    (htd : f.isTypeDef = false)
    (hunset : objHas data f.name = false)
    (hprov : f.defaultValueProvider = some p)
    (hdef : isUndefined (p uc) = false)
    (hU : ∀ d, U model (.obj d) = c)
    (hnorel : fkRelationSet f data = false)
    (hpre : ∀ g ∈ pre,
      (g.name = f.name → g.isTypeDef = true ∨ g.defaultValueProvider = none) ∧
      (∀ r, g.relationField = some r → r ≠ f.name) ∧
      (∀ rn, f.relationField = some rn →
        (g.name = rn → g.isTypeDef = true ∨ g.defaultValueProvider = none) ∧
        (∀ r, g.relationField = some r → r ≠ rn)))
    (hpost : ∀ g ∈ post, (g.name = f.name → g.isTypeDef = false) ∧
      (∀ rn, f.relationField = some rn → g.name = rn → g.isTypeDef = false))
    (hok : processCreatePayload U meta uc model data = .ok data') :
    defaultInjected data' f (p uc) := by
  unfold processCreatePayload at hok
  rw [hfields] at hok
  obtain ⟨dm, hpref, hrest⟩ :=
    processFieldsList_append_inv U meta uc model pre (f :: post) data data' hok
  obtain ⟨df, hstep, hpostf⟩ :=
    processFieldsList_cons_inv U meta uc model f post dm data' hrest
  obtain ⟨hun1, hget1⟩ := processFieldsList_preserve_absent U meta uc model pre
    data dm f.name hpref hunset (fun g hg => ⟨(hpre g hg).1, (hpre g hg).2.1⟩)
  have hnorel1 : fkRelationSet f dm = false := by
    cases hrelf : f.relationField with
    | none => simp [fkRelationSet, hrelf]
    | some rn =>
      by_cases hrn : rn = ""
      · subst hrn
        simp [fkRelationSet, hrelf]
      · have hset0 : objHas data rn = false := by
          simp only [fkRelationSet, hrelf, Bool.and_eq_false_iff,
            bne_eq_false_iff_eq] at hnorel
          rcases hnorel with h | h
          · exact absurd h hrn
          · exact h
        obtain ⟨hrnp, _⟩ := processFieldsList_preserve_absent U meta uc model pre
          data dm rn hpref hset0
          (fun g hg => ((hpre g hg).2.2 rn hrelf))
        simp [fkRelationSet, hrelf, hrnp]
  rw [processField_trigger U meta uc model dm f p htd hun1 hprov huc hdef] at hstep
  by_cases hcase : f.isForeignKey = true ∧ c = false
  · obtain ⟨rn, rf, opp, hrelf, hrn, hnoset, hrf, hrfn, hopp, hd⟩ :=
      setDefault_fk_normal_inv U meta f model dm df (p uc) hcase.1 hnorel1
        ((hU dm).trans hcase.2) hstep
    subst hd
    obtain ⟨_, hget2⟩ := processFieldsList_preserve_present U meta uc model post
      _ data' rn hpostf
      (objHas_objSet_self dm rn (.obj [("connect", .obj [(opp, p uc)])]))
      (fun g hg he => (hpost g hg).2 rn hrelf he)
    right
    refine ⟨rn, opp, hrelf, ?_⟩
    rw [hget2, objGet_objSet_self]
    simp [jsGetProp, objGet]
  · have hor : f.isForeignKey = false ∨
        (fkRelationSet f dm = false ∧ U model (.obj dm) = true) := by
      by_cases hfk : f.isForeignKey = true
      · refine Or.inr ⟨hnorel1, ?_⟩
        rw [hU dm]
        cases hc : c with
        | false => exact absurd ⟨hfk, hc⟩ hcase
        | true => rfl
      · exact Or.inl (by simpa using hfk)
    rw [setDefault_scalar U meta f model dm (p uc) hor] at hstep
    injection hstep with h
    subst h
    obtain ⟨_, hget2⟩ := processFieldsList_preserve_present U meta uc model post
      _ data' f.name hpostf (objHas_objSet_self dm f.name (p uc))
      (fun g hg => (hpost g hg).1)
    left
    rw [hget2, objGet_objSet_self]

/-- Claim C8 (amended): for every non-type-def field already present (set by
the caller) in a create payload, default injection is a no-op for that field:
the processed node's value at the field equals the input value, regardless of
whether the field has a default value provider; in particular re-processing a
processed payload changes nothing for such fields. -/
theorem claim8_present_field_unchanged
    (U : String → Value → Bool) (meta : ModelMeta) (uc : Value) (model : String)
    (data data' : List (String × Value)) (pre post : List FieldInfo) (f : FieldInfo)
    (hfields : getFields meta model = pre ++ f :: post)
    (htd : f.isTypeDef = false)
    (hset : objHas data f.name = true)
    (hframe : ∀ g ∈ pre ++ post, g.name = f.name → g.isTypeDef = false)
    (hok : processCreatePayload U meta uc model data = .ok data') :
    objGet data' f.name = objGet data f.name ∧ objHas data' f.name = true := by
  unfold processCreatePayload at hok
  rw [hfields] at hok
  obtain ⟨dm, hpref, hrest⟩ :=
    processFieldsList_append_inv U meta uc model pre (f :: post) data data' hok
  obtain ⟨df, hstep, hpostf⟩ :=
    processFieldsList_cons_inv U meta uc model f post dm data' hrest
  obtain ⟨hp1, hg1⟩ := processFieldsList_preserve_present U meta uc model pre
    data dm f.name hpref hset (fun g hg => hframe g (List.mem_append_left post hg))
  have hdf : df = dm := by
    rw [processField_skip U meta uc model dm f htd (Or.inl hp1)] at hstep
    injection hstep with h
    exact h.symm
  rw [hdf] at hpostf
  obtain ⟨hp2, hg2⟩ := processFieldsList_preserve_present U meta uc model post
    dm data' f.name hpostf hp1
    (fun g hg => hframe g (List.mem_append_right pre hg))
  exact ⟨hg2.trans hg1, hp2⟩

/-- Claim C9: default injection materializes nothing for absent or non-object
embedded values: a type-def field whose payload value is omitted or not an
object is left unchanged without error; a non-object value passed to the
type-def walker is returned unchanged; an unknown type-def name is skipped;
and array elements that are not objects are skipped in place. -/
theorem claim9_typedef_nonobject_skipped
    (U : String → Value → Bool) (meta : ModelMeta) (uc : Value) (model : String)
    (data : List (String × Value)) (f : FieldInfo) (t : String) (d : Value)
    (items : List Value) :
    (f.isTypeDef = true → isObjLike (objGet data f.name) = false →
      processField U meta uc model data f = .ok data) ∧
    (isObjLike d = false → setDefaultValueForTypeDefData meta uc t d = .ok d) ∧
    (getTypeDefInfo meta t = none → setDefaultValueForTypeDefData meta uc t d = .ok d) ∧
    ((∀ x ∈ items, isObjLike x = false) →
      setDefaultValueForTypeDefData meta uc t (.arr items) = .ok (.arr items)) := by
  refine ⟨?_, ?_, ?_, ?_⟩
  · intro htd hv
    have hrec : setDefaultValueForTypeDefData meta uc f.type (objGet data f.name) =
        .ok (objGet data f.name) := by
      unfold setDefaultValueForTypeDefData
      rw [if_pos hv]
    have hpf : processField U meta uc model data f =
        .ok (if objHas data f.name then objSet data f.name (objGet data f.name)
             else data) := by
      unfold processField
      simp only [htd, if_true, hrec]
    rw [hpf]
    by_cases hh : objHas data f.name = true
    · rw [if_pos hh, objSet_objGet_self data f.name hh]
    · rw [if_neg hh]
  · intro hv
    unfold setDefaultValueForTypeDefData
    rw [if_pos hv]
  · intro ht
    unfold setDefaultValueForTypeDefData
    by_cases hv : isObjLike d = false
    · rw [if_pos hv]
    · rw [if_neg hv, ht]
  · intro hitems
    have harr : isObjLike (Value.arr items) = false → False := by simp [isObjLike]
    unfold setDefaultValueForTypeDefData
    rw [if_neg (by simp [isObjLike])]
    cases ht : getTypeDefInfo meta t with
    | none => rfl
    | some td =>
      simp only [processTypeDefItems_skip meta uc td items hitems]

/-- Claim C10: for a model whose foreign-key fields all back the same
relation, at most one identity default is injected per create node in the
non-unsafe path: the first foreign-key field's default is translated into
`connect` (putting the relation field into the payload), and every later
foreign-key field of that relation is skipped because the relation field is
now present — the resulting `connect` object holds only the first field's
opposite key. -/
theorem claim10_single_fk_default_per_relation
    (U : String → Value → Bool) (meta : ModelMeta) (uc : Value) (model : String)
    (data : List (String × Value)) (f1 : FieldInfo) (rest : List FieldInfo)
    (p1 : Value → Value) (rn : String) (rf : FieldInfo) (opp1 : String)
    (huc : truthy uc = true)
    (hU : ∀ d, U model (.obj d) = false)
    (hfields : getFields meta model = f1 :: rest)
    (htd1 : f1.isTypeDef = false)
    (hfk1 : f1.isForeignKey = true)
    (hrel1 : f1.relationField = some rn)
    (hrn : rn ≠ "")
    (hunset1 : objHas data f1.name = false)
    (hprov1 : f1.defaultValueProvider = some p1)
    (hdef1 : isUndefined (p1 uc) = false)
    (hnoset : objHas data rn = false)
    (hrf : requireField meta model rn = .ok rf)
    (hopp : getOppositeFkFieldName rf f1 = some opp1)
    (hrest : ∀ g ∈ rest, g.isTypeDef = false ∧
      (g.defaultValueProvider = none ∨
        (g.isForeignKey = true ∧ g.relationField = some rn))) :
    processCreatePayload U meta uc model data =
      .ok (objSet data rn (.obj [("connect", .obj [(opp1, p1 uc)])])) ∧
    objGet (objSet data rn (.obj [("connect", .obj [(opp1, p1 uc)])])) rn =
      .obj [("connect", .obj [(opp1, p1 uc)])] := by
  have hd1eq : processField U meta uc model data f1 =
      .ok (objSet data rn (.obj [("connect", .obj [(opp1, p1 uc)])])) := by
    rw [processField_trigger U meta uc model data f1 p1 htd1 hunset1 hprov1 huc hdef1]
    exact setDefault_connect U meta f1 model data (p1 uc) rn rf opp1 hfk1 hrel1 hrn
      hnoset (hU data) hrf hopp
  have hrest_id : ∀ gs (d : List (String × Value)),
      (∀ g ∈ gs, g.isTypeDef = false ∧
        (g.defaultValueProvider = none ∨
          (g.isForeignKey = true ∧ g.relationField = some rn))) →
      objHas d rn = true → processFieldsList U meta uc model gs d = .ok d := by
    intro gs
    induction gs with
    | nil => intro d _ _; rfl
    | cons g gs2 ih =>
      intro d hgs hhas
      obtain ⟨h1, h2⟩ := hgs g (List.mem_cons_self g gs2)
      have hg : processField U meta uc model d g = .ok d := by
        rcases h2 with h2 | ⟨h2a, h2b⟩
        · exact processField_skip U meta uc model d g h1 (Or.inr h2)
        · exact processField_fkGuard_ok U meta uc model d g rn h1 h2a h2b hrn hhas huc
      rw [processFieldsList_cons_eq U meta uc model g gs2 d d hg]
      exact ih d (fun g2 hg2 => hgs g2 (List.mem_cons_of_mem g hg2)) hhas
  refine ⟨?_, objGet_objSet_self data rn _⟩
  unfold processCreatePayload
  rw [hfields]
  rw [processFieldsList_cons_eq U meta uc model f1 rest data _ hd1eq]
  exact hrest_id rest _ hrest (objHas_objSet_self data rn _)

/-- Default value provider reading the `id` of the caller identity
(`auth().id`). -/
def idProvider : Value → Value := fun u => jsGetProp u "id"

/-- A caller identity `{ id: "u1" }`. -/
def userU1 : Value := .obj [("id", .str "u1")]

/-- An unsafe-mutate predicate that always answers `false` (normal writes). -/
def neverUnsafe : String → Value → Bool := fun _ _ => false

/-- Plain scalar field `title` without a default value provider. -/
def exTitleField : FieldInfo := { name := "title" }

/-- Relation field `author` whose foreign-key mapping pairs the opposite id
field `id` with this model's foreign-key field `authorId`. -/
def exAuthorField : FieldInfo :=
  { name := "author", foreignKeyMapping := some [("id", "authorId")] }

/-- Foreign-key field `authorId` defaulted from `auth().id`, backing the
relation field `author`. -/
def exAuthorIdField : FieldInfo :=
  { name := "authorId", isForeignKey := true, relationField := some "author",
    defaultValueProvider := some idProvider }

/-- Metadata of a `Post` model with fields `title`, `author`, `authorId`. -/
def exPostMeta : ModelMeta :=
  { models := [("Post", [exTitleField, exAuthorField, exAuthorIdField])],
    typeDefs := [] }

/-- A `Post` create payload that explicitly connects the author to `u2`. -/
def exConnectPayload : List (String × Value) :=
  [("author", .obj [("connect", .obj [("id", .str "u2")])])]

/-- Scalar field `owner` with an identity default, used on a model where it
is the only field. -/
def exOwnerField : FieldInfo :=
  { name := "owner", defaultValueProvider := some idProvider }

/-- Metadata of a `Note` model with the single defaulted scalar `owner`. -/
def exNoteMeta : ModelMeta :=
  { models := [("Note", [exOwnerField])], typeDefs := [] }

/-- Type-def sub-field `memo` without a default value provider. -/
def exMemoField : FieldInfo := { name := "memo" }

/-- Type-def sub-field `createdBy` defaulted from `auth().id`. -/
def exCreatedByField : FieldInfo :=
  { name := "createdBy", defaultValueProvider := some idProvider }

/-- The `Block` type-def: one provider-less sub-field `memo`. -/
def exBlockTd : TypeDefInfo := { fields := [exMemoField] }

/-- Model field `content` holding an embedded `Block` value. -/
def exContentField : FieldInfo :=
  { name := "content", type := "Block", isTypeDef := true }

/-- Metadata of a `Doc` model with the embedded `Block` type-def. -/
def exDocMeta : ModelMeta :=
  { models := [("Doc", [exContentField])], typeDefs := [("Block", exBlockTd)] }

/-- The `Attrs` type-def: one sub-field `createdBy` defaulted from
`auth().id`. -/
def exAttrsTd : TypeDefInfo := { fields := [exCreatedByField] }

/-- Model field `meta` holding an embedded `Attrs` value. -/
def exMetaField : FieldInfo :=
  { name := "meta", type := "Attrs", isTypeDef := true }

/-- Metadata of a `Profile` model with the embedded `Attrs` type-def. -/
def exProfileMeta : ModelMeta :=
  { models := [("Profile", [exMetaField])], typeDefs := [("Attrs", exAttrsTd)] }

/-- Foreign-key field `refId` with an identity default but no relation
field — inconsistent metadata. -/
def exBadFkField : FieldInfo :=
  { name := "refId", isForeignKey := true, defaultValueProvider := some idProvider }

/-- Metadata of a `Bad` model containing only the inconsistent `refId`. -/
def exBadMeta : ModelMeta :=
  { models := [("Bad", [exBadFkField])], typeDefs := [] }

/-- Relation field `owner` of the `Item` model, whose mapping pairs two
opposite id fields with the two foreign-key fields backing it. -/
def exItemOwnerField : FieldInfo :=
  { name := "owner",
    foreignKeyMapping := some [("id", "ownerId"), ("tid", "ownerTid")] }

/-- First foreign-key field `ownerId` of the `owner` relation, defaulted from
`auth().id`. -/
def exOwnerIdField : FieldInfo :=
  { name := "ownerId", isForeignKey := true, relationField := some "owner",
    defaultValueProvider := some idProvider }

/-- Second foreign-key field `ownerTid` of the same `owner` relation,
defaulted from `auth().tid`. -/
def exOwnerTidField : FieldInfo :=
  { name := "ownerTid", isForeignKey := true, relationField := some "owner",
    defaultValueProvider := some (fun u => jsGetProp u "tid") }

/-- Metadata of an `Item` model with two foreign-key fields backing the same
`owner` relation. -/
def exItemMeta : ModelMeta :=
  { models := [("Item", [exOwnerIdField, exOwnerTidField, exItemOwnerField])],
    typeDefs := [] }

/-! ### Counterexamples -/

/-- Claim C1, counterexample to the unamended statement: on the `Post` model,
`authorId` has an identity-dependent default, is not set in the payload, the
identity is present and the provider returns the defined value `"u1"` — yet
the processed node is unchanged: `authorId` is still absent and the `connect`
of the relation still points at `"u2"`, not at `provider(identity)`, because
the relation field `author` is already targeted by the payload. -/
theorem claim1_counterexample :
    processCreatePayload neverUnsafe exPostMeta userU1 "Post" exConnectPayload =
      .ok exConnectPayload ∧
    objHas exConnectPayload "authorId" = false ∧
    truthy userU1 = true ∧
    idProvider userU1 = .str "u1" ∧
    objGet exConnectPayload "authorId" = Value.undefined ∧
    jsGetProp (jsGetProp (objGet exConnectPayload "author") "connect") "id" =
      .str "u2" :=
  ⟨rfl, rfl, rfl, rfl, rfl, rfl⟩

/-- Claim C8, counterexample to the unamended statement: the `Profile` create
payload sets the type-def field `meta` to `{}`, yet the processed node's value
at `meta` is `{ createdBy: "u1" }` — a field already set by the caller is not
left unchanged when it is a type-def field, since sub-field defaults are
injected into its value. -/
theorem claim8_counterexample :
    processCreatePayload neverUnsafe exProfileMeta userU1 "Profile"
      [("meta", .obj [])] =
      .ok [("meta", .obj [("createdBy", .str "u1")])] ∧
    objHas [("meta", Value.obj [])] "meta" = true ∧
    objGet [("meta", Value.obj [])] "meta" = .obj [] ∧
    Value.obj [] ≠ Value.obj [("createdBy", Value.str "u1")] := by
  refine ⟨?_, rfl, rfl, by simp⟩
  have h1 : setDefaultValueForTypeDefData exProfileMeta userU1 "Attrs" (.obj []) =
      .ok (.obj [("createdBy", .str "u1")]) := by
    unfold setDefaultValueForTypeDefData processTypeDefItem
    simp [processTypeDefFields, exProfileMeta, exAttrsTd, exCreatedByField,
      getTypeDefInfo, getDefaultValue,
      truthy, isObjLike, jsHasProp, jsSetProp, objHas, objSet, userU1, idProvider,
      jsGetProp, objGet, isUndefined]
  unfold processCreatePayload
  have hg : getFields exProfileMeta "Profile" = [exMetaField] := rfl
  rw [hg]
  unfold processFieldsList processField
  have hv : objGet [("meta", Value.obj [])] "meta" = Value.obj [] := rfl
  simp only [show exMetaField.isTypeDef = true from rfl, if_true,
    show exMetaField.type = "Attrs" from rfl,
    show exMetaField.name = "meta" from rfl, hv, h1]
  unfold processFieldsList
  simp [objHas, objSet]

/-! ### Witnesses -/

/-- Witness for claim C1 (amended): on the `Note` model the defaulted scalar
`owner` is injected with `auth().id` into an empty payload. -/
theorem claim1_witness :
    truthy userU1 = true ∧
    getFields exNoteMeta "Note" = [] ++ exOwnerField :: [] ∧
    exOwnerField.isTypeDef = false ∧
    objHas [] exOwnerField.name = false ∧
    exOwnerField.defaultValueProvider = some idProvider ∧
    isUndefined (idProvider userU1) = false ∧
    (∀ d, neverUnsafe "Note" (Value.obj d) = false) ∧
    fkRelationSet exOwnerField [] = false ∧
    processCreatePayload neverUnsafe exNoteMeta userU1 "Note" [] =
      .ok [("owner", Value.str "u1")] ∧
    defaultInjected [("owner", Value.str "u1")] exOwnerField (idProvider userU1) := by
  refine ⟨rfl, rfl, rfl, rfl, rfl, rfl, fun d => rfl, rfl, rfl, ?_⟩
  exact claim1_default_injected neverUnsafe exNoteMeta userU1 "Note" []
    [("owner", Value.str "u1")] [] [] exOwnerField idProvider false
    rfl rfl rfl rfl rfl rfl (fun d => rfl) rfl
    (fun g hg => absurd hg (List.not_mem_nil g))
    (fun g hg => absurd hg (List.not_mem_nil g))
    rfl

/-- Witness for claim C3: creating a `Post` without identity fails with the
validation error naming `authorId`. -/
theorem claim3_witness :
    truthy Value.undefined = false ∧
    getFields exPostMeta "Post" = [exTitleField, exAuthorField] ++
      exAuthorIdField :: [] ∧
    (∀ g ∈ [exTitleField, exAuthorField], g.isTypeDef = false ∧
      (objHas [] g.name = true ∨ g.defaultValueProvider = none)) ∧
    exAuthorIdField.isTypeDef = false ∧
    objHas [] exAuthorIdField.name = false ∧
    exAuthorIdField.defaultValueProvider = some idProvider ∧
    processCreatePayload neverUnsafe exPostMeta Value.undefined "Post" [] =
      .error (.validationError (defaultValueErrorMsg "authorId")) := by
  have hpre : ∀ g ∈ [exTitleField, exAuthorField], g.isTypeDef = false ∧
      (objHas [] g.name = true ∨ g.defaultValueProvider = none) := by
    intro g hg
    rcases List.mem_cons.mp hg with h | hg2
    · subst h; exact ⟨rfl, Or.inr rfl⟩
    · rcases List.mem_cons.mp hg2 with h | hg3
      · subst h; exact ⟨rfl, Or.inr rfl⟩
      · exact absurd hg3 (List.not_mem_nil g)
  refine ⟨rfl, rfl, hpre, rfl, rfl, rfl, ?_⟩
  exact claim3_no_identity_validation_error neverUnsafe exPostMeta Value.undefined "Post"
    [] [exTitleField, exAuthorField] [] exAuthorIdField idProvider
    rfl rfl hpre rfl rfl rfl

/-- Witness for claim C4: injecting `authorId` on a `Post` payload that only
sets `title` puts `connect.id = "u1"` on the `author` relation in a normal
context (the unsafe branch of the conclusion is vacuous for this predicate). -/
theorem claim4_witness :
    exAuthorIdField.isForeignKey = true ∧
    exAuthorIdField.relationField = some "author" ∧
    "author" ≠ "" ∧
    objHas [("title", Value.str "t")] "author" = false ∧
    requireField exPostMeta "Post" "author" = .ok exAuthorField ∧
    getOppositeFkFieldName exAuthorField exAuthorIdField = some "id" ∧
    ((neverUnsafe "Post" (.obj [("title", Value.str "t")]) = true →
      setDefaultValueForModelData neverUnsafe exPostMeta exAuthorIdField "Post"
        [("title", Value.str "t")] (.str "u1") =
        .ok (objSet [("title", Value.str "t")] exAuthorIdField.name (.str "u1"))) ∧
    (neverUnsafe "Post" (.obj [("title", Value.str "t")]) = false →
      setDefaultValueForModelData neverUnsafe exPostMeta exAuthorIdField "Post"
        [("title", Value.str "t")] (.str "u1") =
        .ok (objSet [("title", Value.str "t")] "author"
          (.obj [("connect", .obj [("id", Value.str "u1")])])) ∧
      ∃ mapping, exAuthorField.foreignKeyMapping = some mapping ∧
        ("id", exAuthorIdField.name) ∈ mapping)) := by
  refine ⟨rfl, rfl, by decide, rfl, rfl, rfl, ?_⟩
  exact claim4_fk_unsafe_scalar_else_connect neverUnsafe exPostMeta exAuthorIdField
    "Post" [("title", Value.str "t")] (.str "u1") "author" exAuthorField "id"
    rfl rfl (by decide) rfl rfl rfl

/-- Witness for claim C5: a `Post` payload that already connects `author` to
`u2` keeps the relation and the `authorId` field untouched. -/
theorem claim5_witness :
    getFields exPostMeta "Post" = [exTitleField, exAuthorField] ++
      exAuthorIdField :: [] ∧
    exAuthorIdField.isForeignKey = true ∧
    exAuthorIdField.relationField = some "author" ∧
    objHas exConnectPayload "author" = true ∧
    processCreatePayload neverUnsafe exPostMeta userU1 "Post" exConnectPayload =
      .ok exConnectPayload ∧
    objGet exConnectPayload "author" = objGet exConnectPayload "author" ∧
    objGet exConnectPayload exAuthorIdField.name =
      objGet exConnectPayload exAuthorIdField.name := by
  have hframe : ∀ g ∈ [exTitleField, exAuthorField] ++ ([] : List FieldInfo),
      (g.name = "author" → g.isTypeDef = false) ∧
      g.name ≠ exAuthorIdField.name ∧
      (∀ r, g.relationField = some r → r ≠ exAuthorIdField.name) := by
    intro g hg
    rcases List.mem_cons.mp hg with h | hg2
    · subst h
      exact ⟨fun _ => rfl, by decide, fun r hr => Option.noConfusion hr⟩
    · rcases List.mem_cons.mp hg2 with h | hg3
      · subst h
        exact ⟨fun _ => rfl, by decide, fun r hr => Option.noConfusion hr⟩
      · exact absurd hg3 (List.not_mem_nil g)
  have h5 := claim5_relation_targeted_no_injection neverUnsafe exPostMeta userU1
    "Post" exConnectPayload exConnectPayload [exTitleField, exAuthorField] []
    exAuthorIdField "author" rfl rfl rfl rfl (by decide) rfl hframe rfl
  exact ⟨rfl, rfl, rfl, rfl, rfl, h5.1, h5.2.2.1⟩

/-- Witness for claim C6: the inconsistent `refId` field (a foreign key with
no relation field) makes injection fail with the configuration error naming
it. -/
theorem claim6_witness :
    exBadFkField.isForeignKey = true ∧
    neverUnsafe "Bad" (.obj []) = false ∧
    fkRelationSet exBadFkField [] = false ∧
    exBadFkField.relationField = none ∧
    setDefaultValueForModelData neverUnsafe exBadMeta exBadFkField "Bad" []
      (.str "u1") = .error (.configError (fkNoRelationFieldMsg "refId")) := by
  refine ⟨rfl, rfl, rfl, rfl, ?_⟩
  exact (claim6_unresolved_fk_metadata_config_error neverUnsafe exBadMeta
    exBadFkField "Bad" [] (.str "u1") rfl rfl rfl).1 rfl

/-- Witness for claim C8 (amended): the caller-set `title` field survives
processing of a `Post` create payload unchanged, while the `authorId` default
is injected elsewhere. -/
theorem claim8_witness :
    getFields exPostMeta "Post" = [] ++ exTitleField ::
      [exAuthorField, exAuthorIdField] ∧
    exTitleField.isTypeDef = false ∧
    objHas [("title", Value.str "t")] exTitleField.name = true ∧
    processCreatePayload neverUnsafe exPostMeta userU1 "Post"
      [("title", Value.str "t")] =
      .ok [("title", Value.str "t"),
           ("author", .obj [("connect", .obj [("id", Value.str "u1")])])] ∧
    objGet [("title", Value.str "t"),
           ("author", Value.obj [("connect", Value.obj [("id", Value.str "u1")])])]
      exTitleField.name = objGet [("title", Value.str "t")] exTitleField.name := by
  have hframe : ∀ g ∈ ([] : List FieldInfo) ++ [exAuthorField, exAuthorIdField],
      g.name = exTitleField.name → g.isTypeDef = false := by
    intro g hg _
    rcases List.mem_cons.mp hg with h | hg2
    · subst h; rfl
    · rcases List.mem_cons.mp hg2 with h | hg3
      · subst h; rfl
      · exact absurd hg3 (List.not_mem_nil g)
  refine ⟨rfl, rfl, rfl, rfl, ?_⟩
  exact (claim8_present_field_unchanged neverUnsafe exPostMeta userU1 "Post"
    [("title", Value.str "t")]
    [("title", Value.str "t"),
     ("author", .obj [("connect", .obj [("id", Value.str "u1")])])]
    [] [exAuthorField, exAuthorIdField] exTitleField rfl rfl rfl hframe rfl).1

/-- Witness for claim C9: a non-object embedded value, an unknown type-def
name and non-object array elements are all left unchanged. -/
theorem claim9_witness :
    exContentField.isTypeDef = true ∧
    isObjLike (objGet [("content", Value.num 5)] "content") = false ∧
    processField neverUnsafe exDocMeta Value.undefined "Doc"
      [("content", Value.num 5)] exContentField = .ok [("content", Value.num 5)] ∧
    isObjLike (Value.str "s") = false ∧
    setDefaultValueForTypeDefData exDocMeta Value.undefined "Nope" (.str "s") =
      .ok (.str "s") ∧
    getTypeDefInfo exDocMeta "Nope" = none ∧
    setDefaultValueForTypeDefData exDocMeta Value.undefined "Nope" (.bool true) =
      .ok (.bool true) ∧
    (∀ x ∈ [Value.num 1, Value.null], isObjLike x = false) ∧
    setDefaultValueForTypeDefData exDocMeta Value.undefined "Nope"
      (.arr [Value.num 1, Value.null]) = .ok (.arr [Value.num 1, Value.null]) := by
  have hitems : ∀ x ∈ [Value.num 1, Value.null], isObjLike x = false := by
    intro x hx
    rcases List.mem_cons.mp hx with h | hx2
    · subst h; rfl
    · rcases List.mem_cons.mp hx2 with h | hx3
      · subst h; rfl
      · exact absurd hx3 (List.not_mem_nil x)
  refine ⟨rfl, rfl, ?_, rfl, ?_, rfl, ?_, hitems, ?_⟩
  · exact (claim9_typedef_nonobject_skipped neverUnsafe exDocMeta Value.undefined "Doc"
      [("content", Value.num 5)] exContentField "Nope" (Value.str "s") []).1 rfl rfl
  · exact (claim9_typedef_nonobject_skipped neverUnsafe exDocMeta Value.undefined "Doc"
      [("content", Value.num 5)] exContentField "Nope" (Value.str "s") []).2.1 rfl
  · exact (claim9_typedef_nonobject_skipped neverUnsafe exDocMeta Value.undefined "Doc"
      [("content", Value.num 5)] exContentField "Nope" (Value.bool true) []).2.2.1 rfl
  · exact (claim9_typedef_nonobject_skipped neverUnsafe exDocMeta Value.undefined "Doc"
      [("content", Value.num 5)] exContentField "Nope" (Value.str "s")
      [Value.num 1, Value.null]).2.2.2 hitems

/-- Witness for claim C10: on the `Item` model with two foreign keys backing
`owner`, only `ownerId` contributes to the produced `connect`. -/
theorem claim10_witness :
    truthy userU1 = true ∧
    (∀ d, neverUnsafe "Item" (Value.obj d) = false) ∧
    getFields exItemMeta "Item" = exOwnerIdField ::
      [exOwnerTidField, exItemOwnerField] ∧
    exOwnerIdField.isForeignKey = true ∧
    exOwnerIdField.relationField = some "owner" ∧
    objHas [] "owner" = false ∧
    requireField exItemMeta "Item" "owner" = .ok exItemOwnerField ∧
    getOppositeFkFieldName exItemOwnerField exOwnerIdField = some "id" ∧
    (∀ g ∈ [exOwnerTidField, exItemOwnerField], g.isTypeDef = false ∧
      (g.defaultValueProvider = none ∨
        (g.isForeignKey = true ∧ g.relationField = some "owner"))) ∧
    processCreatePayload neverUnsafe exItemMeta userU1 "Item" [] =
      .ok (objSet [] "owner"
        (.obj [("connect", .obj [("id", Value.str "u1")])])) ∧
    objGet (objSet [] "owner" (.obj [("connect", .obj [("id", Value.str "u1")])]))
      "owner" = .obj [("connect", .obj [("id", Value.str "u1")])] := by
  have hrest : ∀ g ∈ [exOwnerTidField, exItemOwnerField], g.isTypeDef = false ∧
      (g.defaultValueProvider = none ∨
        (g.isForeignKey = true ∧ g.relationField = some "owner")) := by
    intro g hg
    rcases List.mem_cons.mp hg with h | hg2
    · subst h; exact ⟨rfl, Or.inr ⟨rfl, rfl⟩⟩
    · rcases List.mem_cons.mp hg2 with h | hg3
      · subst h; exact ⟨rfl, Or.inl rfl⟩
      · exact absurd hg3 (List.not_mem_nil g)
  have h10 := claim10_single_fk_default_per_relation neverUnsafe exItemMeta userU1
    "Item" [] exOwnerIdField [exOwnerTidField, exItemOwnerField] idProvider
    "owner" exItemOwnerField "id" rfl (fun d => rfl) rfl rfl rfl rfl
    (by decide) rfl rfl rfl rfl rfl rfl hrest
  exact ⟨rfl, fun d => rfl, rfl, rfl, rfl, rfl, rfl, rfl, hrest, h10.1, h10.2⟩
